import Mathlib

/-!
Verification development for the `ronf` layered-configuration library.

The Rust source is shallowly embedded:
* `Value` mirrors `src/value.rs`'s tagged union (`Map<K, V>` is the crate's
  insertion-ordered `indexmap::IndexMap`, embedded as an association list
  whose type invariant `NodupKeys` — keys pairwise distinct — is carried as a
  hypothesis where a theorem needs it).
* `File`, `FileFormat` mirror `src/file.rs`.
* `ConfigBuilder`, `Config` and the construction algorithm mirror
  `src/config.rs`.
* The per-format parsers/serializers are external collaborators behind a
  two-function interface, so decoding and encoding are passed in as a
  `Fmt` record; the merge/override/overlay logic proved about here is the
  crate's own code.  Compile-time feature flags (`ini`, `json`, ...) become
  the `featureEnabled` field; the `env` and `load_after_build` features are
  modelled by an optional environment snapshot and by `Config.load` being
  present.
-/

/-- `Value` from `src/value.rs`: the closed tagged union of configuration
values (constructors in lower case: `none`, `array`, `table`, `string`,
`float`, `int`, `bool` stand for the Rust `None`, `Array`, ...).  `int`
carries mathematical integers (the Rust payload is `i64`; the 64-bit range
enters as an explicit hypothesis where it matters).  `float` carries
Lean's `Float` as an uninterpreted stand-in for `f64`; no theorem below
depends on floating-point behaviour. -/
inductive Value where
  | none : Value
  | array (xs : List Value)
  | table (t : List (String × Value))
  | string (s : String)
  | float (f : Float)
  | int (n : Int)
  | bool (b : Bool)

/-- `Map<String, Value>`: the crate's insertion-ordered map, embedded as an
association list in insertion order. -/
abbrev MapSV := List (String × Value)

/-- Lookup (`IndexMap::get`): the entry with the given key (first match;
unique under the `NodupKeys` invariant). -/
def lookupMap : MapSV → String → Option Value
  | [], _ => Option.none
  | (k', v) :: rest, k => if k' = k then some v else lookupMap rest k

/-- `IndexMap::contains_key`. -/
def containsKey (m : MapSV) (k : String) : Bool :=
  (lookupMap m k).isSome

/-- `IndexMap::insert`: if the key is present its value is replaced in
place (index kept), otherwise the pair is appended at the end. -/
def insertMap : MapSV → String → Value → MapSV
  | [], k, v => [(k, v)]
  | (k', v') :: rest, k, v =>
    if k' = k then (k, v) :: rest else (k', v') :: insertMap rest k v

/-- `IndexMap::extend`: insert every pair of the second map, left to
right, into the first. -/
def extendMap (m other : MapSV) : MapSV :=
  other.foldl (fun acc p => insertMap acc p.1 p.2) m

/-- Keys in insertion order (`IndexMap::keys`). -/
def mapKeys (m : MapSV) : List String :=
  m.map Prod.fst

/-- The `IndexMap` type invariant: keys are pairwise distinct. -/
def NodupKeys (m : MapSV) : Prop :=
  (mapKeys m).Nodup

/-- Modelled from the spec: `Value::is_table` ("true only for the `Table`
variant") — the method is called by `ConfigBuilder::build` but its
definition is not among the provided sources. -/
def Value.is_table : Value → Bool
  | Value.table _ => true
  | _ => false

-- Basic lemmas about the ordered-map model.

theorem lookupMap_insertMap_self (m : MapSV) (k : String) (v : Value) :
    lookupMap (insertMap m k v) k = some v := by
  induction m with
  | nil => simp [insertMap, lookupMap]
  | cons p rest ih =>
    obtain ⟨k', v'⟩ := p
    by_cases h : k' = k
    · simp [insertMap, lookupMap, h]
    · simp [insertMap, lookupMap, h, ih]

theorem lookupMap_insertMap_other (m : MapSV) (k k' : String) (v : Value)
    (hne : k' ≠ k) : lookupMap (insertMap m k v) k' = lookupMap m k' := by
  induction m with
  | nil => simp [insertMap, lookupMap, Ne.symm hne]
  | cons p rest ih =>
    obtain ⟨k0, v0⟩ := p
    by_cases h : k0 = k
    · subst h
      simp [insertMap, lookupMap, Ne.symm hne]
    · simp [insertMap, lookupMap, h, ih]

theorem mapKeys_insertMap_of_contains (m : MapSV) (k : String) (v : Value)
    (h : containsKey m k = true) : mapKeys (insertMap m k v) = mapKeys m := by
  induction m with
  | nil => simp [containsKey, lookupMap] at h
  | cons p rest ih =>
    obtain ⟨k0, v0⟩ := p
    by_cases hk : k0 = k
    · simp [insertMap, mapKeys, hk]
    · have h' : containsKey rest k = true := by
        simpa [containsKey, lookupMap, hk] using h
      simp [insertMap, mapKeys, hk]
      simpa [mapKeys] using ih h'

theorem containsKey_insertMap (m : MapSV) (k k' : String) (v : Value) :
    containsKey (insertMap m k v) k' = (containsKey m k' || (k' = k)) := by
  by_cases hne : k' = k
  · subst hne
    simp [containsKey, lookupMap_insertMap_self]
  · simp [containsKey, lookupMap_insertMap_other m k k' v hne, hne]

theorem lookupMap_eq_none_of_not_contains (m : MapSV) (k : String)
    (h : containsKey m k = false) : lookupMap m k = Option.none := by
  unfold containsKey at h
  cases hm : lookupMap m k with
  | none => rfl
  | some v => rw [hm] at h; simp at h

/-- `FileFormat` from `src/file.rs`. -/
inductive FileFormat where
  | Ini : FileFormat
  | Json : FileFormat
  | Yaml : FileFormat
  | Toml : FileFormat
  | Ron : FileFormat
deriving DecidableEq

/-- `File` from `src/file.rs`: a named unit of raw input with a declared
format. -/
structure File where
  path : String
  format : FileFormat
  content : String

/-- The external format collaborators together with the crate's
compile-time feature selection: `featureEnabled fmt` models
`cfg(feature = "...")` for that format, `de fmt` the format module's
`deserialize`, `en fmt` its `serialize`.  (INI has no serializer in the
crate; `save_map` below never consults `en FileFormat.Ini`.) -/
structure Fmt where
  featureEnabled : FileFormat → Bool
  de : FileFormat → String → Except String MapSV
  en : FileFormat → MapSV → String

/-- The per-format "feature is not enabled" error text used across
`src/file.rs` and `src/config.rs`. -/
def featErr : FileFormat → String
  | FileFormat.Ini => "INI format feature is not enabled"
  | FileFormat.Json => "JSON format feature is not enabled"
  | FileFormat.Yaml => "YAML format feature is not enabled"
  | FileFormat.Toml => "TOML format feature is not enabled"
  | FileFormat.Ron => "RON format feature is not enabled"

/-- `File::parse` from `src/file.rs`: dispatch on the format — run the
format module's `deserialize` when its feature is compiled in, otherwise
fail with the "not enabled" error. -/
def File.parse (P : Fmt) (f : File) : Except String MapSV :=
  if P.featureEnabled f.format then P.de f.format f.content
  else Except.error (featErr f.format)

/-- `load_map` from `src/config.rs`: reject empty content, then dispatch
to the format module's `deserialize` exactly as `File::parse` does. -/
def load_map (P : Fmt) (save : String) (format : FileFormat) :
    Except String MapSV :=
  if save = "" then Except.error "Empty content"
  else if P.featureEnabled format then P.de format save
  else Except.error (featErr format)

/-- `save_map` from `src/config.rs`: INI has no serializer (a distinct
error from the feature being absent); every other compiled-in format
serializes the map. -/
def save_map (P : Fmt) (m : MapSV) (format : FileFormat) :
    Except String String :=
  match format with
  | FileFormat.Ini =>
    if P.featureEnabled FileFormat.Ini then
      Except.error "Serializing INI format is not supported"
    else Except.error (featErr FileFormat.Ini)
  | fmt =>
    if P.featureEnabled fmt then Except.ok (P.en fmt m)
    else Except.error (featErr fmt)

/-- `ConfigBuilder` from `src/config.rs`. -/
structure ConfigBuilder where
  files : List File
  changes : MapSV

/-- `Config` from `src/config.rs`. -/
structure Config where
  defaults : MapSV
  changes : MapSV
  values : MapSV

/-- The first loop of `ConfigBuilder::build`: parse each file in list
order, extending `defaults`; the first parse failure aborts the whole
construction with an error naming the file. -/
def parseAll (P : Fmt) : List File → MapSV → Except String MapSV
  | [], acc => Except.ok acc
  | f :: fs, acc =>
    match File.parse P f with
    | Except.error e =>
      Except.error ("Failed to parse file " ++ f.path ++ ": " ++ e)
    | Except.ok parsed => parseAll P fs (extendMap acc parsed)

/-- One step of the second loop of `ConfigBuilder::build`: an override
pair overwrites `values` only if its key is already present. -/
def applyChange (values : MapSV) (kv : String × Value) : MapSV :=
  if containsKey values kv.1 then insertMap values kv.1 kv.2 else values

/-- The second loop of `ConfigBuilder::build`: fold `applyChange` over the
override document in order. -/
def applyChanges (values changes : MapSV) : MapSV :=
  changes.foldl applyChange values

/-- Model of Rust's `str::to_lowercase` (character-wise case mapping; the
ASCII mapping suffices for every claim). -/
def toLowerStr (s : String) : String :=
  ⟨s.data.map Char.toLower⟩

/-- Model of Rust's `str::split` on a single-character separator, on the
character list: every separator occurrence starts a new (possibly empty)
segment, and the empty input yields one empty segment. -/
def splitChars (sep : Char) : List Char → List (List Char)
  | [] => [[]]
  | c :: cs =>
    let r := splitChars sep cs
    if c = sep then [] :: r
    else
      match r with
      | [] => [[c]]
      | g :: gs => (c :: g) :: gs

/-- Model of Rust's `str::split` on a single-character separator. -/
def splitStr (sep : Char) (s : String) : List String :=
  (splitChars sep s.data).map (fun cs => (⟨cs⟩ : String))

/-- The key preprocessing of the environment loop: lowercase the variable
name, split on underscore, drop empty segments. -/
def envKeyParts (name : String) : List String :=
  (splitStr '_' (toLowerStr name)).filter (· ≠ "")

/-- One step of the environment loop of `ConfigBuilder::build`: skip when
no segments remain or the first segment is not a key of `values` or its
value is a table; otherwise overwrite in place. -/
def applyEnvVar (values : MapSV) (kv : String × Value) : MapSV :=
  match envKeyParts kv.1 with
  | [] => values
  | p :: _ =>
    match lookupMap values p with
    | Option.none => values
    | Option.some v => if v.is_table then values else insertMap values p kv.2

/-- `get_env_vars` from `src/config.rs`: collect the environment snapshot
into a map of `Value::String`s. -/
def get_env_vars (env : List (String × String)) : MapSV :=
  env.foldl (fun m kv => insertMap m kv.1 (Value.string kv.2)) []

/-- `ConfigBuilder::build` from `src/config.rs`.  `envSnap` is the process
environment when the `env` feature is compiled in, `Option.none` when it
is not.  Note that the built `Config` starts with an empty `changes` map:
the builder's override document is only folded into `values`. -/
def ConfigBuilder.build (P : Fmt) (envSnap : Option (List (String × String)))
    (b : ConfigBuilder) : Except String Config :=
  match parseAll P b.files [] with
  | Except.error e => Except.error e
  | Except.ok defaults =>
    let values := applyChanges defaults b.changes
    let values :=
      match envSnap with
      | Option.none => values
      | Option.some env => (get_env_vars env).foldl applyEnvVar values
    Except.ok { defaults := defaults, changes := [], values := values }

/-- `ConfigBuilder::load` from `src/config.rs`: decode the file through
`load_map` and replace (not merge) the pending override document. -/
def ConfigBuilder.load (P : Fmt) (b : ConfigBuilder) (f : File) :
    Except String ConfigBuilder :=
  match load_map P f.content f.format with
  | Except.error e => Except.error e
  | Except.ok m => Except.ok { b with changes := m }

/-- `Config::get`. -/
def Config.get (c : Config) (key : String) : Option Value :=
  lookupMap c.values key

/-- `Config::set`: insert into both `changes` and `values`
unconditionally. -/
def Config.set (c : Config) (key : String) (value : Value) : Config :=
  { c with
    changes := insertMap c.changes key value
    values := insertMap c.values key value }

/-- `Config::list`. -/
def Config.list (c : Config) : List String :=
  mapKeys c.values

/-- `Config::load` from `src/config.rs` (feature `load_after_build`):
parse the file (note: directly through `File::parse`, with no empty-content
guard), extend `changes` with the parsed document, and recompute `values`
from `defaults` under the same restrictive overwrite rule as
construction. -/
def Config.load (P : Fmt) (c : Config) (f : File) : Except String Config :=
  match File.parse P f with
  | Except.error e =>
    Except.error ("Failed to parse file " ++ f.path ++ ": " ++ e)
  | Except.ok parsed =>
    let changes := extendMap c.changes parsed
    let values := applyChanges (c.defaults) changes
    Except.ok { c with changes := changes, values := values }

/-- `Config::save`: serialize the `changes` map through `save_map`. -/
def Config.save (P : Fmt) (c : Config) (format : FileFormat) :
    Except String String :=
  save_map P c.changes format

/-- `CannotConvert` from `src/error.rs` (fields renamed `fromKind`/`toKind`
because `from` is a Lean keyword). -/
structure CannotConvert where
  fromKind : String
  toKind : String
deriving DecidableEq

/-- `CannotConvert::new`. -/
def CannotConvert.new (f t : String) : CannotConvert :=
  { fromKind := f, toKind := t }

/-- The character for a single decimal digit. -/
def digitChar (d : Nat) : Char :=
  Char.ofNat ('0'.toNat + d)

/-- Decimal digits of a natural number, least significant first. -/
def natDigitsRev (n : Nat) : List Char :=
  if h : n < 10 then [digitChar n]
  else digitChar (n % 10) :: natDigitsRev (n / 10)
decreasing_by exact Nat.div_lt_self (by omega) (by omega)

/-- Decimal rendering of a natural number. -/
def natToString (n : Nat) : String :=
  ⟨(natDigitsRev n).reverse⟩

/-- Model of Rust's `i64::to_string` (as called by `TryInto<String> for
Value`): plain decimal, `-`-prefixed when negative. -/
def intToString (n : Int) : String :=
  if n < 0 then "-" ++ natToString (-n).toNat else natToString n.toNat

/-- The numeric value of an ASCII decimal digit, if the character is one. -/
def digitVal (c : Char) : Option Nat :=
  if '0' ≤ c ∧ c ≤ '9' then some (c.toNat - '0'.toNat) else Option.none

/-- Accumulate decimal digits; any non-digit character fails. -/
def parseNatAux : Nat → List Char → Option Nat
  | acc, [] => some acc
  | acc, c :: cs =>
    match digitVal c with
    | some d => parseNatAux (acc * 10 + d) cs
    | Option.none => Option.none

/-- Model of Rust's `str::parse::<i64>` on the character list: an optional
single `+`/`-` sign followed by one or more ASCII decimal digits; anything
else, and any value outside the `i64` range `[-2^63, 2^63 - 1]`, is an
error. -/
def parseI64chars : List Char → Option Int
  | [] => Option.none
  | c :: cs =>
    if c = '-' then
      match cs with
      | [] => Option.none
      | _ :: _ =>
        match parseNatAux 0 cs with
        | some m => if (m : Int) ≤ 2 ^ 63 then some (-(m : Int)) else Option.none
        | Option.none => Option.none
    else if c = '+' then
      match cs with
      | [] => Option.none
      | _ :: _ =>
        match parseNatAux 0 cs with
        | some m =>
          if (m : Int) ≤ 2 ^ 63 - 1 then some ((m : Int)) else Option.none
        | Option.none => Option.none
    else
      match parseNatAux 0 (c :: cs) with
      | some m =>
        if (m : Int) ≤ 2 ^ 63 - 1 then some ((m : Int)) else Option.none
      | Option.none => Option.none

/-- Model of Rust's `str::parse::<i64>` (as called by `TryInto<i64> for
Value`). -/
def parseI64 (s : String) : Option Int :=
  parseI64chars s.data

/-- Model of Rust's saturating `f64 as i64` cast (as called by
`TryInto<i64> for Value`); no theorem below depends on it. -/
def f64AsI64 (f : Float) : Int :=
  if f.isNaN then 0
  else if f ≤ -9223372036854775808.0 then -(2 ^ 63)
  else if f ≥ 9223372036854775808.0 then 2 ^ 63 - 1
  else if f ≥ 0 then Int.ofNat f.toUInt64.toNat
  else -(Int.ofNat (-f).toUInt64.toNat)

/-- `TryInto<String> for Value` from `src/value.rs`.  (The `float` arm
stands for Rust's `f64::to_string`; its exact text is irrelevant here.) -/
def tryIntoString : Value → Except CannotConvert String
  | Value.none => Except.ok "null"
  | Value.string s => Except.ok s
  | Value.float f => Except.ok (toString f)
  | Value.int n => Except.ok (intToString n)
  | Value.array _ => Except.error (CannotConvert.new "Array" "String")
  | Value.table _ => Except.error (CannotConvert.new "Table" "String")
  | Value.bool b => Except.ok (if b then "true" else "false")

/-- `TryInto<i64> for Value` from `src/value.rs`. -/
def tryIntoI64 : Value → Except CannotConvert Int
  | Value.none => Except.ok 0
  | Value.string s =>
    match parseI64 s with
    | some n => Except.ok n
    | Option.none => Except.error (CannotConvert.new "String" "Int")
  | Value.float f => Except.ok (f64AsI64 f)
  | Value.int n => Except.ok n
  | Value.array _ => Except.error (CannotConvert.new "Array" "Int")
  | Value.table _ => Except.error (CannotConvert.new "Table" "Int")
  | Value.bool b => Except.ok (if b then 1 else 0)

/-- `TryInto<bool> for Value` from `src/value.rs`: the string arm
lowercases and compares against the source's four literal patterns
(`"t" | "true" | "True" | "1"`), never failing. -/
def tryIntoBool : Value → Except CannotConvert Bool
  | Value.none => Except.ok false
  | Value.string s =>
    Except.ok (toLowerStr s == "t" || toLowerStr s == "true" ||
      toLowerStr s == "True" || toLowerStr s == "1")
  | Value.float f => Except.ok (f != 0.0)
  | Value.int n => Except.ok (n != 0)
  | Value.array _ => Except.error (CannotConvert.new "Array" "Bool")
  | Value.table _ => Except.error (CannotConvert.new "Table" "Bool")
  | Value.bool b => Except.ok b

-- Round-trip lemmas for the decimal printer and parser.

theorem digitVal_digitChar : ∀ d : Nat, d < 10 → digitVal (digitChar d) = some d := by
  decide

theorem digitChar_bounds : ∀ d : Nat, d < 10 →
    '0' ≤ digitChar d ∧ digitChar d ≤ '9' := by
  decide

theorem parseNatAux_append (xs ys : List Char) :
    ∀ a : Nat, parseNatAux a (xs ++ ys) =
      match parseNatAux a xs with
      | some m => parseNatAux m ys
      | Option.none => Option.none := by
  induction xs with
  | nil => intro a; simp [parseNatAux]
  | cons c cs ih =>
    intro a
    simp only [List.cons_append, parseNatAux]
    cases digitVal c with
    | none => simp
    | some d => simpa using ih (a * 10 + d)

theorem natDigitsRev_ne_nil (n : Nat) : natDigitsRev n ≠ [] := by
  rw [natDigitsRev]
  by_cases h : n < 10 <;> simp [h]

theorem mem_natDigitsRev_bounds (n : Nat) :
    ∀ c ∈ natDigitsRev n, '0' ≤ c ∧ c ≤ '9' := by
  induction n using Nat.strong_induction_on with
  | _ n ih =>
    rw [natDigitsRev]
    by_cases h : n < 10
    · simp only [h, dif_pos]
      intro c hc
      simp only [List.mem_singleton] at hc
      subst hc
      exact digitChar_bounds n h
    · simp only [h, dif_neg, not_false_iff]
      intro c hc
      rcases List.mem_cons.mp hc with hc | hc
      · subst hc
        exact digitChar_bounds (n % 10) (Nat.mod_lt n (by omega))
      · exact ih (n / 10) (Nat.div_lt_self (by omega) (by omega)) c hc

theorem parseNatAux_natDigitsRev (n : Nat) :
    ∀ a : Nat, parseNatAux a ((natDigitsRev n).reverse) =
      some (a * 10 ^ (natDigitsRev n).length + n) := by
  induction n using Nat.strong_induction_on with
  | _ n ih =>
    intro a
    rw [natDigitsRev]
    by_cases h : n < 10
    · simp only [h, dif_pos, List.reverse_singleton, List.length_singleton]
      simp [parseNatAux, digitVal_digitChar n h]
    · simp only [h, dif_neg, not_false_iff, List.reverse_cons, List.length_cons]
      rw [parseNatAux_append]
      rw [ih (n / 10) (Nat.div_lt_self (by omega) (by omega)) a]
      simp only [parseNatAux, digitVal_digitChar (n % 10) (Nat.mod_lt n (by omega))]
      congr 1
      have hdm : n / 10 * 10 + n % 10 = n := by omega
      calc (a * 10 ^ (natDigitsRev (n / 10)).length + n / 10) * 10 + n % 10
          = a * (10 ^ (natDigitsRev (n / 10)).length * 10) +
              (n / 10 * 10 + n % 10) := by ring
        _ = a * 10 ^ ((natDigitsRev (n / 10)).length + 1) + n := by
              rw [hdm, pow_succ]

theorem parseNatAux_zero_natDigitsRev (n : Nat) :
    parseNatAux 0 ((natDigitsRev n).reverse) = some n := by
  simpa using parseNatAux_natDigitsRev n 0

theorem head_natDigitsRev_reverse_not_sign (n : Nat) (c : Char)
    (cs : List Char) (h : (natDigitsRev n).reverse = c :: cs) :
    ¬ c = '-' ∧ ¬ c = '+' := by
  have hc : c ∈ natDigitsRev n := by
    have : c ∈ (natDigitsRev n).reverse := by rw [h]; simp
    simpa using this
  have hb := mem_natDigitsRev_bounds n c hc
  constructor
  · intro he; subst he; revert hb; decide
  · intro he; subst he; revert hb; decide

theorem parseI64_intToString (n : Int) (h1 : -(2 ^ 63) ≤ n)
    (h2 : n ≤ 2 ^ 63 - 1) : parseI64 (intToString n) = some n := by
  have h63 : (2 : Int) ^ 63 = 9223372036854775808 := by norm_num
  rw [h63] at h1 h2
  by_cases hneg : n < 0
  · have hm : ((-n).toNat : Int) = -n := by omega
    have hdata : (intToString n).data =
        '-' :: (natDigitsRev (-n).toNat).reverse := by
      simp [intToString, hneg, natToString]
    rw [parseI64, hdata]
    obtain ⟨c, cs, hrev⟩ : ∃ c cs,
        (natDigitsRev (-n).toNat).reverse = c :: cs := by
      cases hr : (natDigitsRev (-n).toNat).reverse with
      | nil =>
        exact absurd (List.reverse_eq_nil_iff.mp hr)
          (natDigitsRev_ne_nil (-n).toNat)
      | cons c cs => exact ⟨c, cs, rfl⟩
    rw [hrev]
    have hparse : parseNatAux 0 (c :: cs) = some (-n).toNat := by
      rw [← hrev]; exact parseNatAux_zero_natDigitsRev (-n).toNat
    simp only [parseI64chars, if_pos rfl, hparse]
    have hle : (((-n).toNat : Int)) ≤ 2 ^ 63 := by rw [h63]; omega
    rw [if_pos hle]
    rw [hm, neg_neg]
    simp
  · have hpos : 0 ≤ n := by omega
    have hm : (n.toNat : Int) = n := by omega
    have hdata : (intToString n).data = (natDigitsRev n.toNat).reverse := by
      simp [intToString, hneg, natToString]
    rw [parseI64, hdata]
    obtain ⟨c, cs, hrev⟩ : ∃ c cs,
        (natDigitsRev n.toNat).reverse = c :: cs := by
      cases hr : (natDigitsRev n.toNat).reverse with
      | nil =>
        exact absurd (List.reverse_eq_nil_iff.mp hr)
          (natDigitsRev_ne_nil n.toNat)
      | cons c cs => exact ⟨c, cs, rfl⟩
    rw [hrev]
    obtain ⟨hc1, hc2⟩ := head_natDigitsRev_reverse_not_sign n.toNat c cs hrev
    have hparse : parseNatAux 0 (c :: cs) = some n.toNat := by
      rw [← hrev]; exact parseNatAux_zero_natDigitsRev n.toNat
    simp only [parseI64chars, if_neg hc1, if_neg hc2, hparse]
    have hle : ((n.toNat : Int)) ≤ 2 ^ 63 - 1 := by rw [h63]; omega
    rw [if_pos hle, hm]

-- Lemmas about the merge, override and environment-overlay loops.

theorem containsKey_cons (k0 : String) (v0 : Value) (rest : MapSV)
    (k : String) :
    containsKey ((k0, v0) :: rest) k = ((k0 = k) || containsKey rest k) := by
  by_cases h : k0 = k <;> simp [containsKey, lookupMap, h]

theorem containsKey_iff_mem_keys (m : MapSV) (k : String) :
    containsKey m k = true ↔ k ∈ mapKeys m := by
  induction m with
  | nil => simp [containsKey, lookupMap, mapKeys]
  | cons p rest ih =>
    obtain ⟨k0, v0⟩ := p
    rw [containsKey_cons]
    by_cases h : k0 = k
    · subst h; simp [mapKeys]
    · have h' : k ≠ k0 := fun he => h he.symm
      simp [mapKeys, h, h', ih]

theorem containsKey_congr_keys (m m' : MapSV) (k : String)
    (h : mapKeys m = mapKeys m') : containsKey m k = containsKey m' k := by
  rw [Bool.eq_iff_iff, containsKey_iff_mem_keys, containsKey_iff_mem_keys, h]

theorem extendMap_cons (m : MapSV) (k : String) (v : Value) (rest : MapSV) :
    extendMap m ((k, v) :: rest) = extendMap (insertMap m k v) rest := rfl

theorem lookupMap_extendMap_of_not_contains (other : MapSV) (k : String)
    (h : containsKey other k = false) :
    ∀ m, lookupMap (extendMap m other) k = lookupMap m k := by
  induction other with
  | nil => intro m; rfl
  | cons p rest ih =>
    intro m
    obtain ⟨k0, v0⟩ := p
    rw [containsKey_cons] at h
    have hk0 : ¬ k0 = k := by
      intro he; rw [he] at h; simp at h
    have hrest : containsKey rest k = false := by
      revert h; cases containsKey rest k <;> simp
    rw [extendMap_cons, ih hrest]
    exact lookupMap_insertMap_other m k0 k v0 (fun he => hk0 he.symm)

theorem lookupMap_extendMap (other : MapSV) (hnd : NodupKeys other)
    (k : String) :
    ∀ m, lookupMap (extendMap m other) k =
      match lookupMap other k with
      | some v => some v
      | Option.none => lookupMap m k := by
  induction other with
  | nil => intro m; rfl
  | cons p rest ih =>
    intro m
    obtain ⟨k0, v0⟩ := p
    have hnd' : NodupKeys rest := by
      unfold NodupKeys mapKeys at hnd ⊢
      exact (List.nodup_cons.mp hnd).2
    have hk0mem : k0 ∉ mapKeys rest := by
      unfold NodupKeys mapKeys at hnd
      exact (List.nodup_cons.mp hnd).1
    by_cases h : k0 = k
    · subst h
      have hrest : containsKey rest k0 = false := by
        cases hc : containsKey rest k0
        · rfl
        · exact absurd ((containsKey_iff_mem_keys rest k0).mp hc) hk0mem
      rw [extendMap_cons, lookupMap_extendMap_of_not_contains rest k0 hrest]
      simp [lookupMap, lookupMap_insertMap_self]
    · rw [extendMap_cons, ih hnd']
      simp [lookupMap, h, lookupMap_insertMap_other m k0 k v0 (fun he => h he.symm)]

theorem mapKeys_applyChange (values : MapSV) (kv : String × Value) :
    mapKeys (applyChange values kv) = mapKeys values := by
  unfold applyChange
  by_cases h : containsKey values kv.1
  · simp [h, mapKeys_insertMap_of_contains values kv.1 kv.2 h]
  · simp [h]

theorem mapKeys_applyChanges (changes : MapSV) :
    ∀ values, mapKeys (applyChanges values changes) = mapKeys values := by
  induction changes with
  | nil => intro values; rfl
  | cons kv rest ih =>
    intro values
    show mapKeys (applyChanges (applyChange values kv) rest) = mapKeys values
    rw [ih (applyChange values kv), mapKeys_applyChange]

theorem mapKeys_applyEnvVar (values : MapSV) (kv : String × Value) :
    mapKeys (applyEnvVar values kv) = mapKeys values := by
  unfold applyEnvVar
  cases hp : envKeyParts kv.1 with
  | nil => rfl
  | cons p rest =>
    simp only []
    cases hv : lookupMap values p with
    | none => rfl
    | some v =>
      simp only [hv]
      by_cases ht : v.is_table
      · simp [ht]
      · have hc : containsKey values p = true := by
          simp [containsKey, hv]
        simp [ht, mapKeys_insertMap_of_contains values p kv.2 hc]

theorem mapKeys_foldl_applyEnvVar (envs : MapSV) :
    ∀ values, mapKeys (envs.foldl applyEnvVar values) = mapKeys values := by
  induction envs with
  | nil => intro values; rfl
  | cons kv rest ih =>
    intro values
    show mapKeys (rest.foldl applyEnvVar (applyEnvVar values kv)) = mapKeys values
    rw [ih (applyEnvVar values kv), mapKeys_applyEnvVar]

theorem lookupMap_applyChanges_of_not_contains (changes : MapSV) (k : String)
    (h : containsKey changes k = false) :
    ∀ values, lookupMap (applyChanges values changes) k = lookupMap values k := by
  induction changes with
  | nil => intro values; rfl
  | cons kv rest ih =>
    intro values
    obtain ⟨k0, v0⟩ := kv
    rw [containsKey_cons] at h
    have hk0 : ¬ k0 = k := by
      intro he; rw [he] at h; simp at h
    have hrest : containsKey rest k = false := by
      revert h; cases containsKey rest k <;> simp
    show lookupMap (applyChanges (applyChange values (k0, v0)) rest) k =
      lookupMap values k
    rw [ih hrest]
    unfold applyChange
    by_cases hc : containsKey values k0
    · simp only [hc, if_true]
      exact lookupMap_insertMap_other values k0 k v0 (fun he => hk0 he.symm)
    · simp [hc]

theorem lookupMap_applyChanges_of_contains (changes : MapSV)
    (hnd : NodupKeys changes) (k : String) (v : Value)
    (hlk : lookupMap changes k = some v) :
    ∀ values, containsKey values k = true →
      lookupMap (applyChanges values changes) k = some v := by
  induction changes with
  | nil => simp [lookupMap] at hlk
  | cons kv rest ih =>
    intro values hc
    obtain ⟨k0, v0⟩ := kv
    have hnd' : NodupKeys rest := by
      unfold NodupKeys mapKeys at hnd ⊢
      exact (List.nodup_cons.mp hnd).2
    have hk0mem : k0 ∉ mapKeys rest := by
      unfold NodupKeys mapKeys at hnd
      exact (List.nodup_cons.mp hnd).1
    show lookupMap (applyChanges (applyChange values (k0, v0)) rest) k = some v
    by_cases h : k0 = k
    · subst h
      have hv : v0 = v := by
        simpa [lookupMap] using hlk
      subst hv
      have hrest : containsKey rest k0 = false := by
        cases hcc : containsKey rest k0
        · rfl
        · exact absurd ((containsKey_iff_mem_keys rest k0).mp hcc) hk0mem
      rw [lookupMap_applyChanges_of_not_contains rest k0 hrest]
      unfold applyChange
      simp only [hc, if_true]
      exact lookupMap_insertMap_self values k0 v0
    · have hlk' : lookupMap rest k = some v := by
        simpa [lookupMap, h] using hlk
      have hc' : containsKey (applyChange values (k0, v0)) k = true := by
        rw [containsKey_congr_keys _ values k (mapKeys_applyChange values (k0, v0))]
        exact hc
      exact ih hnd' hlk' (applyChange values (k0, v0)) hc'

-- Lemmas about the construction pipeline.

theorem parseAll_ok_iff (P : Fmt) (fs : List File) :
    ∀ acc, (∃ t, parseAll P fs acc = Except.ok t) ↔
      ∀ f ∈ fs, ∃ t, File.parse P f = Except.ok t := by
  induction fs with
  | nil => intro acc; simp [parseAll]
  | cons f rest ih =>
    intro acc
    cases hp : File.parse P f with
    | error e =>
      simp only [parseAll, hp]
      constructor
      · rintro ⟨t, ht⟩; cases ht
      · intro h
        obtain ⟨t, ht⟩ := h f (by simp)
        rw [hp] at ht; cases ht
    | ok t =>
      simp only [parseAll, hp]
      rw [ih (extendMap acc t)]
      constructor
      · intro h g hg
        rcases List.mem_cons.mp hg with hg | hg
        · subst hg; exact ⟨t, hp⟩
        · exact h g hg
      · intro h g hg
        exact h g (by simp [hg])

theorem parseAll_error_at (P : Fmt) (fs1 : List File) (f : File)
    (fs2 : List File) (e : String)
    (h1 : ∀ g ∈ fs1, ∃ t, File.parse P g = Except.ok t)
    (h2 : File.parse P f = Except.error e) :
    ∀ acc, parseAll P (fs1 ++ f :: fs2) acc =
      Except.error ("Failed to parse file " ++ f.path ++ ": " ++ e) := by
  induction fs1 with
  | nil =>
    intro acc
    simp only [List.nil_append, parseAll, h2]
  | cons g rest ih =>
    intro acc
    obtain ⟨t, ht⟩ := h1 g (by simp)
    simp only [List.cons_append, parseAll, ht]
    exact ih (fun g' hg' => h1 g' (by simp [hg'])) (extendMap acc t)

theorem parseAll_forall2 (P : Fmt) (fs : List File) (ts : List MapSV)
    (h : List.Forall₂ (fun f t => File.parse P f = Except.ok t) fs ts) :
    ∀ acc, parseAll P fs acc = Except.ok (ts.foldl extendMap acc) := by
  induction h with
  | nil => intro acc; rfl
  | cons hft hrest ih =>
    intro acc
    simp only [parseAll, hft, List.foldl_cons]
    exact ih _

theorem lookupMap_foldl_extendMap (ts : List MapSV)
    (hnd : ∀ t ∈ ts, NodupKeys t) (k : String) :
    ∀ acc, lookupMap (ts.foldl extendMap acc) k =
      ts.foldl
        (fun r t =>
          match lookupMap t k with
          | some v => some v
          | Option.none => r)
        (lookupMap acc k) := by
  induction ts with
  | nil => intro acc; rfl
  | cons t rest ih =>
    intro acc
    simp only [List.foldl_cons]
    rw [ih (fun u hu => hnd u (by simp [hu])) (extendMap acc t)]
    rw [lookupMap_extendMap t (hnd t (by simp)) k acc]

theorem build_ok_elim (P : Fmt) (envSnap : Option (List (String × String)))
    (b : ConfigBuilder) (c : Config)
    (h : b.build P envSnap = Except.ok c) :
    parseAll P b.files [] = Except.ok c.defaults ∧
    c.changes = [] ∧
    c.values =
      (match envSnap with
       | Option.none => applyChanges c.defaults b.changes
       | Option.some env =>
         (get_env_vars env).foldl applyEnvVar
           (applyChanges c.defaults b.changes)) := by
  unfold ConfigBuilder.build at h
  cases hp : parseAll P b.files [] with
  | error e => rw [hp] at h; cases h
  | ok d =>
    rw [hp] at h
    injection h with h'
    subst h'
    exact ⟨rfl, rfl, by cases envSnap <;> rfl⟩

-- Concrete demonstration collaborators used by witnesses and
-- counterexamples.

/-- A demonstration collaborator pack: every format feature compiled in,
every decode returning the given fixed table (for instance, the TOML
collaborator maps the empty document to the empty table), every encode
returning the empty string. -/
def constPack (t : MapSV) : Fmt :=
  { featureEnabled := fun _ => true
    de := fun _ _ => Except.ok t
    en := fun _ _ => "" }

/-- A demonstration pack whose decoders distinguish a few fixed
documents. -/
def twoDocPack : Fmt :=
  { featureEnabled := fun _ => true
    de := fun _ s =>
      if s = "A" then Except.ok [("x", Value.int 1), ("y", Value.int 2)]
      else if s = "bad" then Except.error "boom"
      else Except.ok [("y", Value.int 3)]
    en := fun _ _ => "" }

/-- A demonstration pack with no format feature compiled in. -/
def offPack : Fmt :=
  { featureEnabled := fun _ => false
    de := fun _ _ => Except.error "off"
    en := fun _ _ => "" }

/-- C3: for every built Config, every key `k` and value `v`: after
`set(k, v)`, `get(k)` returns `v` and `changes` contains `(k, v)`,
unconditionally — `set` inserts into both `changes` and `values` whether
or not `k` existed in `defaults` or `values` before. -/
theorem c3_set_then_get (c : Config) (k : String) (v : Value) :
    (c.set k v).get k = some v ∧
    lookupMap (c.set k v).changes k = some v :=
  ⟨lookupMap_insertMap_self c.values k v, lookupMap_insertMap_self c.changes k v⟩

/-- C7: coercion round-trips are identities — `Value::Int(n)` converts to
its decimal string and parses back to `n` for every `n` in the `i64`
range, and `Value::Bool(b)` converts to `"true"`/`"false"` and parses back
to `b` without error. -/
theorem c7_coercion_roundtrips (n : Int) (b : Bool)
    (h1 : -(2 ^ 63) ≤ n) (h2 : n ≤ 2 ^ 63 - 1) :
    (tryIntoString (Value.int n) = Except.ok (intToString n) ∧
     tryIntoI64 (Value.string (intToString n)) = Except.ok n) ∧
    (tryIntoString (Value.bool b) =
       Except.ok (if b then "true" else "false") ∧
     tryIntoBool (Value.string (if b then "true" else "false")) =
       Except.ok b) := by
  refine ⟨⟨rfl, ?_⟩, rfl, ?_⟩
  · show (match parseI64 (intToString n) with
      | some m => Except.ok m
      | Option.none => Except.error (CannotConvert.new "String" "Int")) =
      Except.ok n
    rw [parseI64_intToString n h1 h2]
  · cases b <;> rfl

/-- Witness for C7 at the boundary values `n = -2^63` and `b = true`. -/
theorem c7_coercion_roundtrips_witness :
    (tryIntoString (Value.int (-9223372036854775808)) =
       Except.ok (intToString (-9223372036854775808)) ∧
     tryIntoI64 (Value.string (intToString (-9223372036854775808))) =
       Except.ok (-9223372036854775808)) ∧
    (tryIntoString (Value.bool true) =
       Except.ok (if true then "true" else "false") ∧
     tryIntoBool (Value.string (if true then "true" else "false")) =
       Except.ok true) :=
  c7_coercion_roundtrips (-9223372036854775808) true (by norm_num) (by norm_num)

/-- C1, counterexample to the retention part: build a Config from an
override document containing the key `"extra"`, absent from the defaults.
Construction succeeds, yet the built `changes` map does not contain
`"extra"` at all (it is empty — `ConfigBuilder::build` never copies the
builder's override document into the Config), so `save` cannot emit it. -/
theorem c1_retention_counterexample :
    ((ConfigBuilder.mk [File.mk "f" FileFormat.Json "x"]
        [("extra", Value.string "v")]).build
      (constPack [("b", Value.string "w")]) Option.none).toOption.map
        (fun c => lookupMap c.changes "extra") = some Option.none := rfl

/-- C1 (amended): a key `k` of the override document takes effect on
`values` iff `k` is already a key of `defaults`; when `k` is absent from
`defaults`, `values` is unchanged at `k` and `get k` returns absence after
build — but the override document is not retained: the built Config's
`changes` map is empty. -/
theorem c1_override_application (P : Fmt)
    (envSnap : Option (List (String × String))) (b : ConfigBuilder)
    (c : Config) (k : String) (v : Value)
    (hb : b.build P envSnap = Except.ok c)
    (hnd : NodupKeys b.changes)
    (hk : lookupMap b.changes k = some v) :
    (envSnap = Option.none → containsKey c.defaults k = true →
      lookupMap c.values k = some v) ∧
    (containsKey c.defaults k = false →
      lookupMap c.values k = Option.none ∧ c.get k = Option.none) ∧
    c.changes = [] := by
  obtain ⟨hparse, hch, hval⟩ := build_ok_elim P envSnap b c hb
  refine ⟨?_, ?_, hch⟩
  · intro henv hcont
    subst henv
    rw [hval]
    exact lookupMap_applyChanges_of_contains b.changes hnd k v hk
      c.defaults hcont
  · intro hcont
    have hkeys : mapKeys c.values = mapKeys c.defaults := by
      rw [hval]
      cases envSnap with
      | none => exact mapKeys_applyChanges b.changes c.defaults
      | some env =>
        rw [mapKeys_foldl_applyEnvVar (get_env_vars env)
          (applyChanges c.defaults b.changes)]
        exact mapKeys_applyChanges b.changes c.defaults
    have hcv : containsKey c.values k = false := by
      rw [containsKey_congr_keys c.values c.defaults k hkeys, hcont]
    exact ⟨lookupMap_eq_none_of_not_contains c.values k hcv,
      lookupMap_eq_none_of_not_contains c.values k hcv⟩

/-- Witness for C1: an override of the key `"b"`, which is present in the
defaults, takes effect on `values`. -/
theorem c1_override_application_witness :
    lookupMap (Config.mk [("b", Value.string "w")] []
      [("b", Value.string "v2")]).values "b" = some (Value.string "v2") :=
  (c1_override_application (constPack [("b", Value.string "w")]) Option.none
    (ConfigBuilder.mk [File.mk "f" FileFormat.Json "x"]
      [("b", Value.string "v2")])
    (Config.mk [("b", Value.string "w")] [] [("b", Value.string "v2")])
    "b" (Value.string "v2") rfl (by simp [NodupKeys, mapKeys]) rfl).1 rfl rfl

-- Helper for the distinct-keys case of the source merge.

theorem foldl_lastWins_all_none (ts : List MapSV) (k : String)
    (h : ∀ u ∈ ts, lookupMap u k = Option.none) :
    ∀ r, ts.foldl
      (fun r t =>
        match lookupMap t k with
        | some v => some v
        | Option.none => r) r = r := by
  induction ts with
  | nil => intro r; rfl
  | cons t rest ih =>
    intro r
    simp only [List.foldl_cons, h t (by simp)]
    exact ih (fun u hu => h u (by simp [hu])) r

theorem foldl_lastWins_single (ts : List MapSV) (k : String) (t : MapSV)
    (v : Value) (ht : t ∈ ts) (hv : lookupMap t k = some v)
    (hothers : ∀ u ∈ ts, u = t ∨ lookupMap u k = Option.none) :
    ∀ r, ts.foldl
      (fun r t =>
        match lookupMap t k with
        | some v => some v
        | Option.none => r) r = some v := by
  induction ts with
  | nil => cases ht
  | cons u rest ih =>
    intro r
    by_cases hmem : t ∈ rest
    · exact ih hmem (fun w hw => hothers w (by simp [hw])) _
    · have hut : u = t := by
        rcases List.mem_cons.mp ht with h | h
        · exact h.symm
        · exact absurd h hmem
      subst hut
      simp only [List.foldl_cons, hv]
      apply foldl_lastWins_all_none
      intro w hw
      rcases hothers w (by simp [hw]) with h | h
      · exact absurd (h ▸ hw) hmem
      · exact h

/-- C2: after a successful build, `defaults` is the left-to-right shallow
merge of the decoded source tables — for any key, the last source in the
list defining it wins; when a key is defined by exactly one source, its
value is that source's value (union behaviour on distinct key sets). -/
theorem c2_defaults_merge (P : Fmt)
    (envSnap : Option (List (String × String))) (b : ConfigBuilder)
    (ts : List MapSV) (c : Config) (k : String)
    (hts : List.Forall₂ (fun f t => File.parse P f = Except.ok t) b.files ts)
    (hnd : ∀ t ∈ ts, NodupKeys t)
    (hb : b.build P envSnap = Except.ok c) :
    lookupMap c.defaults k =
      ts.foldl
        (fun r t =>
          match lookupMap t k with
          | some v => some v
          | Option.none => r) Option.none ∧
    (∀ t ∈ ts, ∀ v, lookupMap t k = some v →
      (∀ u ∈ ts, u = t ∨ lookupMap u k = Option.none) →
      lookupMap c.defaults k = some v) := by
  obtain ⟨hparse, _, _⟩ := build_ok_elim P envSnap b c hb
  have hpf := parseAll_forall2 P b.files ts hts []
  rw [hparse] at hpf
  injection hpf with hdef
  have hmain : lookupMap c.defaults k =
      ts.foldl
        (fun r t =>
          match lookupMap t k with
          | some v => some v
          | Option.none => r) Option.none := by
    rw [hdef, lookupMap_foldl_extendMap ts hnd k []]
    rfl
  refine ⟨hmain, ?_⟩
  intro t ht v hv hothers
  rw [hmain]
  exact foldl_lastWins_single ts k t v ht hv hothers Option.none

/-- Witness for C2: two sources, contents `"A"` and `"B"`, both defining
`"y"`; the later source's value wins. -/
theorem c2_defaults_merge_witness :
    lookupMap (Config.mk [("x", Value.int 1), ("y", Value.int 3)] []
        [("x", Value.int 1), ("y", Value.int 3)]).defaults "y" =
      [[("x", Value.int 1), ("y", Value.int 2)], [("y", Value.int 3)]].foldl
        (fun r t =>
          match lookupMap t "y" with
          | some v => some v
          | Option.none => r) Option.none :=
  (c2_defaults_merge twoDocPack Option.none
    (ConfigBuilder.mk
      [File.mk "f1" FileFormat.Json "A", File.mk "f2" FileFormat.Json "B"] [])
    [[("x", Value.int 1), ("y", Value.int 2)], [("y", Value.int 3)]]
    (Config.mk [("x", Value.int 1), ("y", Value.int 3)] []
      [("x", Value.int 1), ("y", Value.int 3)])
    "y"
    (List.Forall₂.cons rfl (List.Forall₂.cons rfl List.Forall₂.nil))
    (by
      intro t ht
      rcases List.mem_cons.mp ht with h | h
      · subst h; simp [NodupKeys, mapKeys]
      · rcases List.mem_cons.mp h with h2 | h2
        · subst h2; simp [NodupKeys, mapKeys]
        · cases h2)
    rfl).1

/-- C4: with the environment overlay enabled, each environment variable is
processed by lowercasing its name, splitting on underscore and dropping
empty segments; when no segment remains, or the first segment is not a key
of `values`, the variable is skipped; when the key holds a table it is
left unchanged; otherwise it is overwritten with the raw value as a
string, leaving every other key untouched.  Construction folds exactly
this step over the whole environment snapshot. -/
theorem c4_env_overlay (vs : MapSV) (name raw : String) :
    (envKeyParts name = [] → applyEnvVar vs (name, Value.string raw) = vs) ∧
    (∀ p rest, envKeyParts name = p :: rest →
      (lookupMap vs p = Option.none →
        applyEnvVar vs (name, Value.string raw) = vs) ∧
      (∀ t, lookupMap vs p = some (Value.table t) →
        applyEnvVar vs (name, Value.string raw) = vs) ∧
      (∀ v, lookupMap vs p = some v → v.is_table = false →
        lookupMap (applyEnvVar vs (name, Value.string raw)) p =
          some (Value.string raw) ∧
        ∀ k2, k2 ≠ p →
          lookupMap (applyEnvVar vs (name, Value.string raw)) k2 =
            lookupMap vs k2)) ∧
    (∀ (P : Fmt) (env : List (String × String)) (b : ConfigBuilder)
      (c : Config), b.build P (Option.some env) = Except.ok c →
      c.values = (get_env_vars env).foldl applyEnvVar
        (applyChanges c.defaults b.changes)) := by
  refine ⟨?_, ?_, ?_⟩
  · intro h
    simp [applyEnvVar, h]
  · intro p rest hp
    refine ⟨?_, ?_, ?_⟩
    · intro hnone
      simp [applyEnvVar, hp, hnone]
    · intro t htab
      simp [applyEnvVar, hp, htab, Value.is_table]
    · intro v hv hnt
      have happ : applyEnvVar vs (name, Value.string raw) =
          insertMap vs p (Value.string raw) := by
        simp [applyEnvVar, hp, hv, hnt]
      rw [happ]
      exact ⟨lookupMap_insertMap_self vs p (Value.string raw),
        fun k2 hk2 => lookupMap_insertMap_other vs p k2 (Value.string raw) hk2⟩
  · intro P env b c hb
    exact (build_ok_elim P (Option.some env) b c hb).2.2

/-- Witness for C4: the spec scenario — defaults hold a table at
`"key14"`, the environment variable `KEY14` does not overwrite it. -/
theorem c4_env_overlay_witness :
    applyEnvVar [("key14", Value.table [("key15", Value.string "value")])]
      ("KEY14", Value.string "overwrite") =
    [("key14", Value.table [("key15", Value.string "value")])] :=
  ((c4_env_overlay [("key14", Value.table [("key15", Value.string "value")])]
      "KEY14" "overwrite").2.1 "key14" [] rfl).2.1
    [("key15", Value.string "value")] rfl

/-- C5: construction succeeds iff every source decodes; the first decode
failure aborts the whole construction — no Config is produced — with an
error naming the failing source and carrying the underlying parse
error. -/
theorem c5_decode_failure_aborts (P : Fmt)
    (envSnap : Option (List (String × String))) (b : ConfigBuilder) :
    ((∃ c, b.build P envSnap = Except.ok c) ↔
      ∀ f ∈ b.files, ∃ t, File.parse P f = Except.ok t) ∧
    (∀ fs1 f fs2 e, b.files = fs1 ++ f :: fs2 →
      (∀ g ∈ fs1, ∃ t, File.parse P g = Except.ok t) →
      File.parse P f = Except.error e →
      b.build P envSnap = Except.error
        ("Failed to parse file " ++ f.path ++ ": " ++ e)) := by
  constructor
  · rw [← parseAll_ok_iff P b.files []]
    unfold ConfigBuilder.build
    cases hp : parseAll P b.files [] with
    | error e =>
      constructor
      · rintro ⟨c, hc⟩; cases hc
      · rintro ⟨t, ht⟩; cases ht
    | ok d =>
      constructor
      · intro _; exact ⟨d, rfl⟩
      · intro _; exact ⟨_, rfl⟩
  · intro fs1 f fs2 e hsplit h1 h2
    unfold ConfigBuilder.build
    rw [hsplit, parseAll_error_at P fs1 f fs2 e h1 h2 []]

/-- Witness for C5: the second of two sources fails to decode, and the
whole build returns the error naming it. -/
theorem c5_decode_failure_aborts_witness :
    (ConfigBuilder.mk
      [File.mk "good" FileFormat.Json "ok", File.mk "nope" FileFormat.Json "bad"]
      []).build twoDocPack Option.none =
    Except.error "Failed to parse file nope: boom" :=
  (c5_decode_failure_aborts twoDocPack Option.none
    (ConfigBuilder.mk
      [File.mk "good" FileFormat.Json "ok", File.mk "nope" FileFormat.Json "bad"]
      [])).2
    [File.mk "good" FileFormat.Json "ok"] (File.mk "nope" FileFormat.Json "bad")
    [] "boom" rfl
    (by
      intro g hg
      rcases List.mem_cons.mp hg with h | h
      · subst h; exact ⟨[("y", Value.int 3)], rfl⟩
      · cases h)
    rfl

/-- The post-construction mutation sequence: fold `Config::set` over a
list of key/value pairs. -/
def applySets (c : Config) (ops : List (String × Value)) : Config :=
  ops.foldl (fun c2 kv => c2.set kv.1 kv.2) c

theorem containsKey_applySets (ops : List (String × Value)) (k : String) :
    ∀ c : Config, containsKey (applySets c ops).values k = true →
      containsKey c.values k = true ∨ k ∈ ops.map Prod.fst := by
  induction ops with
  | nil => intro c h; exact Or.inl h
  | cons kv rest ih =>
    intro c h
    rcases ih (c.set kv.1 kv.2) h with h2 | h2
    · rw [Config.set] at h2
      simp only [containsKey_insertMap] at h2
      rcases Bool.or_eq_true_iff.mp h2 with h3 | h3
      · exact Or.inl h3
      · exact Or.inr (by simp [of_decide_eq_true h3])
    · exact Or.inr (by simp [h2])

/-- C6: construction never puts a key into `values` that is absent from
`defaults` — after build the two key sets agree — and after any sequence
of `set` calls every key of `values` is a key of `defaults` or one of the
explicitly set keys. -/
theorem c6_values_keys_invariant (P : Fmt)
    (envSnap : Option (List (String × String))) (b : ConfigBuilder)
    (c : Config) (ops : List (String × Value)) (k : String)
    (hb : b.build P envSnap = Except.ok c) :
    containsKey c.values k = containsKey c.defaults k ∧
    (containsKey (applySets c ops).values k = true →
      containsKey c.defaults k = true ∨ k ∈ ops.map Prod.fst) := by
  obtain ⟨_, _, hval⟩ := build_ok_elim P envSnap b c hb
  have hkeys : mapKeys c.values = mapKeys c.defaults := by
    rw [hval]
    cases envSnap with
    | none => exact mapKeys_applyChanges b.changes c.defaults
    | some env =>
      rw [mapKeys_foldl_applyEnvVar (get_env_vars env)
        (applyChanges c.defaults b.changes)]
      exact mapKeys_applyChanges b.changes c.defaults
  have hcc : containsKey c.values k = containsKey c.defaults k :=
    containsKey_congr_keys c.values c.defaults k hkeys
  refine ⟨hcc, ?_⟩
  intro h
  rcases containsKey_applySets ops k c h with h2 | h2
  · exact Or.inl (hcc ▸ h2)
  · exact Or.inr h2

/-- Witness for C6: a key introduced purely by `set` is accounted for by
the set-keys clause. -/
theorem c6_values_keys_invariant_witness :
    containsKey (Config.mk [("b", Value.string "w")] []
      [("b", Value.string "w")]).defaults "newkey" = true ∨
    "newkey" ∈ [("newkey", Value.int 5)].map Prod.fst :=
  (c6_values_keys_invariant (constPack [("b", Value.string "w")]) Option.none
    (ConfigBuilder.mk [File.mk "f" FileFormat.Json "x"] [])
    (Config.mk [("b", Value.string "w")] [] [("b", Value.string "w")])
    [("newkey", Value.int 5)] "newkey" rfl).2 rfl

/-- C8, counterexample to the "every path" part: the post-build
`Config::load` has no empty-content guard — it hands the content straight
to `File::parse`.  With a collaborator that accepts the empty document
(as the TOML collaborator does, mapping it to the empty table), loading an
empty override document after build succeeds instead of being rejected. -/
theorem c8_empty_rejection_counterexample :
    (Config.mk [("a", Value.string "x")] [] [("a", Value.string "x")]).load
      (constPack []) (File.mk "f" FileFormat.Toml "") =
    Except.ok
      (Config.mk [("a", Value.string "x")] [] [("a", Value.string "x")]) := rfl

/-- C8 (amended): the builder's `load` rejects an empty override document
with the `"Empty content"` error before any decode is attempted — for
every format and every collaborator — but the post-build `load` performs
no such check: it attempts the decode, and succeeds whenever the decoder
accepts the empty document. -/
theorem c8_empty_rejection (P : Fmt) (b : ConfigBuilder) (fmt : FileFormat)
    (path : String) :
    b.load P (File.mk path fmt "") = Except.error "Empty content" ∧
    load_map P "" fmt = Except.error "Empty content" ∧
    (∀ (c : Config) (t : MapSV),
      File.parse P (File.mk path fmt "") = Except.ok t →
      ∃ c2, c.load P (File.mk path fmt "") = Except.ok c2) := by
  refine ⟨?_, ?_, ?_⟩
  · simp [ConfigBuilder.load, load_map]
  · simp [load_map]
  · intro c t hparse
    simp only [Config.load, hparse]
    exact ⟨_, rfl⟩

/-- Witness for C8: with the empty-accepting collaborator, the post-build
`load` of an empty document succeeds. -/
theorem c8_empty_rejection_witness :
    ∃ c2, (Config.mk [] [] []).load (constPack [])
      (File.mk "g" FileFormat.Toml "") = Except.ok c2 :=
  (c8_empty_rejection (constPack [])
    (ConfigBuilder.mk [] []) FileFormat.Toml "g").2.2
    (Config.mk [] [] []) [] rfl

/-- C9: `save` serializes the `changes` map (not `values`) through the
requested format's encoder; INI, which has no encoder, yields the
"Serializing INI format is not supported" error, which is distinct from
the "INI format feature is not enabled" error produced when the format is
not compiled in. -/
theorem c9_save_changes_and_ini (P Q : Fmt) (c c2 : Config)
    (fmt : FileFormat)
    (hP : P.featureEnabled FileFormat.Ini = true)
    (hQ : Q.featureEnabled FileFormat.Ini = false) :
    (fmt ≠ FileFormat.Ini → P.featureEnabled fmt = true →
      c.save P fmt = Except.ok (P.en fmt c.changes)) ∧
    (c.changes = c2.changes → c.save P fmt = c2.save P fmt) ∧
    c.save P FileFormat.Ini =
      Except.error "Serializing INI format is not supported" ∧
    c.save Q FileFormat.Ini =
      Except.error "INI format feature is not enabled" ∧
    "Serializing INI format is not supported" ≠
      "INI format feature is not enabled" := by
  refine ⟨?_, ?_, ?_, ?_, ?_⟩
  · intro hne hen
    cases fmt with
    | Ini => exact absurd rfl hne
    | Json => simp [Config.save, save_map, hen]
    | Yaml => simp [Config.save, save_map, hen]
    | Toml => simp [Config.save, save_map, hen]
    | Ron => simp [Config.save, save_map, hen]
  · intro hch
    unfold Config.save
    rw [hch]
  · simp [Config.save, save_map, hP]
  · simp [Config.save, save_map, hQ, featErr]
  · decide

/-- Witness for C9: the two INI error texts out of the compiled-in and
not-compiled-in packs. -/
theorem c9_save_changes_and_ini_witness :
    (Config.mk [] [("k", Value.int 7)] []).save (constPack [])
      FileFormat.Ini =
    Except.error "Serializing INI format is not supported" :=
  (c9_save_changes_and_ini (constPack []) offPack
    (Config.mk [] [("k", Value.int 7)] [])
    (Config.mk [] [("k", Value.int 7)] [])
    FileFormat.Json rfl rfl).2.2.1

/-- C10: the builder's `load` replaces the pending override document
wholesale — after loading `d1` then `d2`, the builder (and therefore the
built Config) is the same as after loading `d2` alone, provided `d1`
decodes. -/
theorem c10_load_replaces (P : Fmt) (b : ConfigBuilder) (f1 f2 : File)
    (m1 : MapSV) (h1 : load_map P f1.content f1.format = Except.ok m1) :
    ((b.load P f1).bind (fun b2 => b2.load P f2) = b.load P f2) ∧
    (∀ envSnap,
      ((b.load P f1).bind (fun b2 => b2.load P f2)).bind
          (fun b2 => b2.build P envSnap) =
        (b.load P f2).bind (fun b2 => b2.build P envSnap)) := by
  have hrepl : (b.load P f1).bind (fun b2 => b2.load P f2) = b.load P f2 := by
    unfold ConfigBuilder.load
    rw [h1]
    show (match load_map P f2.content f2.format with
      | Except.error e => Except.error e
      | Except.ok m => Except.ok (ConfigBuilder.mk b.files m)) =
      match load_map P f2.content f2.format with
      | Except.error e => Except.error e
      | Except.ok m => Except.ok (ConfigBuilder.mk b.files m)
    rfl
  exact ⟨hrepl, fun envSnap => by rw [hrepl]⟩

/-- Witness for C10: loading the document `"A"` and then the (distinct)
document `"B"` leaves exactly the builder state of loading `"B"` alone. -/
theorem c10_load_replaces_witness :
    ((ConfigBuilder.mk [] []).load twoDocPack
        (File.mk "d1" FileFormat.Json "A")).bind
      (fun b2 => b2.load twoDocPack (File.mk "d2" FileFormat.Json "B")) =
    (ConfigBuilder.mk [] []).load twoDocPack
      (File.mk "d2" FileFormat.Json "B") :=
  (c10_load_replaces twoDocPack (ConfigBuilder.mk [] [])
    (File.mk "d1" FileFormat.Json "A") (File.mk "d2" FileFormat.Json "B")
    [("x", Value.int 1), ("y", Value.int 2)] rfl).1
